import Mathlib

/-!
Completion bridging between Kokkos dispatches and HPX futures

A shallow embedding of

* `src/hpx/kokkos/future.hpp`      (the per-backend `detail::get_future` strategies),
* `include/hpx/kokkos/parallel.hpp` (the nine `parallel_*_async` dispatch wrappers),
* `include/hpx/kokkos/executors.hpp` (the `executor` adapter),

followed by theorems about them.

Conventions of the embedding.

* The conditional compilation of `future.hpp` is a function of the macro
  environment of the build; it yields either a build error or the table that
  sends the type of an execution-space instance to its completion strategy.
* The backend is a nondeterministic machine: a dispatch puts one work item per
  index of its range into `outstanding`; the backend may finish any outstanding
  item at any later moment; a fence finishes everything outstanding on one
  instance.  This is the most liberal scheduler, so a safety property proved
  for it holds for every backend that schedules more strictly.
* Host-side calls are recorded, in program order, in `trace`.
* The indices of a dispatch are naturals (the index types of the backend are
  not part of the sources embedded here); a functor declared with an `int`
  parameter receives the index narrowed to a 32-bit `int` (`narrowInt`).
-/

namespace HpxKokkos

/-! ## Conditional compilation of `future.hpp` -/

/-- A preprocessing token that can be the replacement of an object-like macro:
an integer literal or an identifier. -/
inductive PPToken where
  | num (n : Int)
  | ident (name : String)
  deriving DecidableEq, Repr

/-- The macro environment of a translation unit: object-like macros and their
replacement token, first definition first. -/
abbrev MacroEnv := List (String × PPToken)

/-- The operator `defined(NAME)`. -/
def defined (env : MacroEnv) (name : String) : Bool :=
  (env.lookup name).isSome

/-- Macro replacement of one token.  A macro name is not replaced again inside
its own expansion (`hide`), so `env.length + 1` units of fuel are enough. -/
def expandToken (env : MacroEnv) : Nat → List String → PPToken → PPToken
  | 0, _, t => t
  | _ + 1, _, .num n => .num n
  | fuel + 1, hide, .ident s =>
    if s ∈ hide then .ident s
    else
      match env.lookup s with
      | none => .ident s
      | some t => expandToken env fuel (s :: hide) t

/-- The value of a token inside the controlling expression of `#if`: after macro
replacement every remaining identifier other than `true` is read as `0`. -/
def ppValue (env : MacroEnv) (t : PPToken) : Int :=
  match expandToken env (env.length + 1) [] t with
  | .num n => n
  | .ident s => if s = "true" then 1 else 0

/-- The name of the build-time switch. -/
def futureTypeSwitch : String := "HPX_KOKKOS_CUDA_FUTURE_TYPE"

/-- Lines 41-43 and 61-63 of `future.hpp`:
`#if !defined(HPX_KOKKOS_CUDA_FUTURE_TYPE)` /
`#define HPX_KOKKOS_CUDA_FUTURE_TYPE callback` / `#endif`. -/
def defineDefaultFutureType (env : MacroEnv) : MacroEnv :=
  if !defined env futureTypeSwitch then
    env ++ [(futureTypeSwitch, PPToken.ident "callback")]
  else env

/-- The two ways a stream future is produced. -/
inductive StreamMode where
  | event
  | callback
  deriving DecidableEq, Repr

/-- Lines 47-55 and 67-75 of `future.hpp`: the `#if` / `#elif` / `#else #error`
chain inside the stream specialisations. -/
def selectStreamMode (env : MacroEnv) : Except String StreamMode :=
  if ppValue env (.ident futureTypeSwitch) = 0 then .ok .event
  else if ppValue env (.ident futureTypeSwitch) = 1 then .ok .callback
  else .error "HPX_KOKKOS_CUDA_FUTURE_TYPE is invalid (must be callback or event)"

/-- The concrete type of an execution-space instance. -/
inductive SpaceKind where
  | serial
  | openmp
  | rocm
  | cuda
  | hip
  | hpx
  deriving DecidableEq, Repr

/-- The body of `detail::get_future<...>::call` that is compiled for a type. -/
inductive Strategy where
  | fence
  | stream (mode : StreamMode)
  | nested
  deriving DecidableEq, Repr

/-- The block guarded by `#if defined(KOKKOS_ENABLE_CUDA)` (with `name` the
guarding macro; the block guarded by `KOKKOS_ENABLE_HIP` is the same text for
the other type).  It returns the environment after the block and the mode of the
specialisation when the block is compiled. -/
def streamBlock (name : String) (env : MacroEnv) :
    Except String (MacroEnv × Option StreamMode) :=
  if defined env name then
    match selectStreamMode (defineDefaultFutureType env) with
    | .ok m => .ok (defineDefaultFutureType env, some m)
    | .error e => .error e
  else .ok (env, none)

/-- Lines 80-81 of `future.hpp`:
`defined(KOKKOS_ENABLE_HPX) && KOKKOS_VERSION >= 30000 &&
defined(KOKKOS_ENABLE_HPX_ASYNC_DISPATCH)`. -/
def hpxBlockEnabled (env : MacroEnv) : Bool :=
  defined env "KOKKOS_ENABLE_HPX" &&
    decide (30000 ≤ ppValue env (.ident "KOKKOS_VERSION")) &&
    defined env "KOKKOS_ENABLE_HPX_ASYNC_DISPATCH"

/-- What `future.hpp` compiles to under a macro environment: a build error, or
the table from instance types to completion strategies (the primary template
wherever no specialisation was compiled). -/
def compileFutureHpp (env : MacroEnv) : Except String (SpaceKind → Strategy) :=
  match streamBlock "KOKKOS_ENABLE_CUDA" env with
  | .error e => .error e
  | .ok (env1, cudaMode) =>
    match streamBlock "KOKKOS_ENABLE_HIP" env1 with
    | .error e => .error e
    | .ok (env2, hipMode) =>
      .ok fun k =>
        match k with
        | .cuda =>
          match cudaMode with
          | some m => .stream m
          | none => .fence
        | .hip =>
          match hipMode with
          | some m => .stream m
          | none => .fence
        | .hpx => if hpxBlockEnabled env2 then .nested else .fence
        | _ => .fence

/-! ## Instances, work items, futures and the backend machine -/

/-- An execution-space instance: its concrete type and the backend context
(stream, pool, nested instance) it is a handle to.  Copies of a handle are equal. -/
structure Instance where
  kind : SpaceKind
  ctx : Nat
  deriving DecidableEq, Repr

/-- Modelled from the spec: the backend's default construction of an instance,
`ExecutionSpace{}` ("an implicit default instance").  It is the handle to the
default context of its type, so two default-constructed instances of one type
are the same instance. -/
def defaultInstance (k : SpaceKind) : Instance := ⟨k, 0⟩

/-- The three backend dispatch primitives. -/
inductive DispatchKind where
  | parallelFor
  | parallelReduce
  | parallelScan
  deriving DecidableEq, Repr

/-- Properties attached with `Kokkos::Experimental::require`. -/
inductive WorkItemProperty where
  | HintLightWeight
  deriving DecidableEq, Repr

/-- A range policy: the instance it is bound to (`policy.space()`), its index
range `[first, last)` and the required work-item property. -/
structure RangePolicy where
  space : Instance
  first : Nat
  last : Nat
  hint : Option WorkItemProperty
  deriving DecidableEq, Repr

/-- The result of `Kokkos::Experimental::require(policy, property)`. -/
def require (p : RangePolicy) (h : WorkItemProperty) : RangePolicy :=
  { p with hint := some h }

/-- One work item of a dispatch: the instance it was submitted to, the number of
the dispatch, its index, and what the functor does at that index. -/
structure WorkItem (β : Type) where
  inst : Instance
  dispatch : Nat
  index : Nat
  body : β

/-- Host-side calls, in program order. -/
inductive Event where
  | print (msg : String)
  | log (msg : String)
  | dispatch (kind : DispatchKind) (label : Option String) (policy : RangePolicy)
      (id : Nat)
  | fence (inst : Instance)
  | makeReadyFuture
  | futureWithEvent (inst : Instance)
  | futureWithCallback (inst : Instance)
  | implGetFuture (inst : Instance)
  deriving DecidableEq, Repr

/-- The state of the backend together with the host trace. -/
structure State (β : Type) where
  outstanding : List (WorkItem β)
  finished : List (WorkItem β)
  nextDispatch : Nat
  trace : List Event

/-- Modelled from the spec: the future type of the host runtime and the futures
the backends hand out, which are not part of the sources ("carries no payload";
"becomes ready when that event is observed signaled"; "the callback, invoked by
the backend driver upon reaching that point in the stream, marks the associated
future ready"; "the native async completion handle already tracked by that
nested instance").
* `ready` is `hpx::make_ready_future()`.
* `after inst n` is a future tied to the point reached on `inst` when `n`
  dispatches had been numbered: the earliest it can be ready is when no dispatch
  numbered below `n` has an outstanding item on `inst`.
* `thenSync fut` is `fut.then(hpx::launch::sync, c)` for a continuation `c`
  without effect. -/
inductive Future where
  | ready
  | after (inst : Instance) (n : Nat)
  | thenSync (fut : Future)
  deriving DecidableEq, Repr

/-- Whether a poll of the future in state `st` can report ready. -/
def isReady {β : Type} (st : State β) : Future → Bool
  | .ready => true
  | .after inst n => st.outstanding.all fun w => decide (w.inst = inst → n ≤ w.dispatch)
  | .thenSync fut => isReady st fut

/-- The work items of one dispatch numbered `id` under `policy`. -/
def workItems {β : Type} (policy : RangePolicy) (id : Nat) (body : Nat → β) :
    List (WorkItem β) :=
  (List.range' policy.first (policy.last - policy.first)).map fun i =>
    ⟨policy.space, id, i, body i⟩

/-- Modelled from the spec: the backend dispatch primitives `Kokkos::parallel_for`,
`parallel_reduce` and `parallel_scan`, which are not part of the sources ("a
black box that accepts a policy/instance and a work function and begins
executing it", "invoked once per logical index in a dispatch").  Called with an
optional label, a policy and a functor, they make the work items of the range
outstanding on the instance of the policy. -/
def kokkosDispatch {β : Type} (kind : DispatchKind) (label : Option String)
    (policy : RangePolicy) (body : Nat → β) (st : State β) : State β :=
  { outstanding := st.outstanding ++ workItems policy st.nextDispatch body
    finished := st.finished
    nextDispatch := st.nextDispatch + 1
    trace := st.trace ++ [Event.dispatch kind label policy st.nextDispatch] }

/-- Modelled from the spec: the policy the backend uses for a dispatch given only
a work count ("constructs an implicit default instance, submits over a
single-dimension extent"): the range `[0, work_count)` on the default instance
of the default execution space. -/
def countPolicy (dflt : SpaceKind) (work_count : Nat) : RangePolicy :=
  ⟨defaultInstance dflt, 0, work_count, none⟩

/-- Modelled from the spec: the backend operation `inst.fence()` ("a blocking
operation that waits until all outstanding work on an instance has completed"):
every item outstanding on `inst` is finished when it returns. -/
def fence {β : Type} (inst : Instance) (st : State β) : State β :=
  { st with
    outstanding := st.outstanding.filter fun w => decide (w.inst ≠ inst)
    finished := st.finished ++ st.outstanding.filter fun w => decide (w.inst = inst)
    trace := st.trace ++ [Event.fence inst] }

/-- Appending host events to the trace. -/
def emit {β : Type} (es : List Event) (st : State β) : State β :=
  { st with trace := st.trace ++ es }

/-- Modelled from the spec: one move of the backend scheduler, which is not part
of the sources ("all work items within one dispatch call execute with no
ordering guarantee relative to each other"): some outstanding item finishes. -/
inductive Completes {β : Type} : State β → State β → Prop where
  | item (pre post : List (WorkItem β)) (w : WorkItem β) (fin : List (WorkItem β))
      (n : Nat) (tr : List Event) :
      Completes ⟨pre ++ w :: post, fin, n, tr⟩ ⟨pre ++ post, fin ++ [w], n, tr⟩

/-- One move of the whole system after a wrapper has returned: an item finishes,
or the host submits another dispatch. -/
inductive Step {β : Type} : State β → State β → Prop where
  | completes {s t : State β} (h : Completes s t) : Step s t
  | submits (kind : DispatchKind) (label : Option String) (policy : RangePolicy)
      (body : Nat → β) (s : State β) : Step s (kokkosDispatch kind label policy body s)

/-! ## `future.hpp` -/

/-- The function `detail::get_future<ExecutionSpace>::call(inst)` for the strategy compiled
for the type of `inst`.
* primary template (lines 29-37): `inst.fence()`, a log line,
  `hpx::make_ready_future()`;
* `Kokkos::Cuda` / `Kokkos::Experimental::HIP` (lines 45-56, 65-76): a log line,
  then `get_future_with_event` or `get_future_with_callback` on the stream;
* `Kokkos::Experimental::HPX` (lines 83-87): a log line, `inst.impl_get_future()`. -/
def detail.get_future.call {β : Type} (s : Strategy) (inst : Instance)
    (st : State β) : Future × State β :=
  match s with
  | .fence =>
    (Future.ready,
      emit [Event.log "getting generic ready future after fencing", Event.makeReadyFuture]
        (fence inst st))
  | .stream .event =>
    (Future.after inst st.nextDispatch,
      emit [Event.log "getting future from stream %p", Event.futureWithEvent inst] st)
  | .stream .callback =>
    (Future.after inst st.nextDispatch,
      emit [Event.log "getting future from stream %p", Event.futureWithCallback inst] st)
  | .nested =>
    (Future.after inst st.nextDispatch,
      emit [Event.log "getting future from HPX instance %x", Event.implGetFuture inst] st)

/-- The free function `get_future(inst)` (lines 95-99): the strategy is the one of the decayed
type of the argument. -/
def get_future {β : Type} (sel : SpaceKind → Strategy) (inst : Instance)
    (st : State β) : Future × State β :=
  detail.get_future.call (sel inst.kind) inst st

/-- The free function `get_future<ExecutionSpace>()` (lines 104-107): the same on a
default-constructed instance. -/
def get_future_default {β : Type} (sel : SpaceKind → Strategy) (k : SpaceKind)
    (st : State β) : Future × State β :=
  detail.get_future.call (sel k) (defaultInstance k) st

/-! ## `parallel.hpp` -/

/-- Lines 20-29: `parallel_for_async(policy, args...)`. -/
def parallel_for_async {β : Type} (sel : SpaceKind → Strategy)
    (policy : RangePolicy) (args : Nat → β) (st : State β) : Future × State β :=
  let st1 := emit [Event.print "calling parallel_for_async with execution policy\n"] st
  let st2 := kokkosDispatch .parallelFor none policy args st1
  detail.get_future.call (sel policy.space.kind) policy.space st2

/-- Lines 31-38: `parallel_for_async(work_count, args...)`. -/
def parallel_for_async_count {β : Type} (sel : SpaceKind → Strategy) (dflt : SpaceKind)
    (work_count : Nat) (args : Nat → β) (st : State β) : Future × State β :=
  let st1 := emit [Event.print "calling parallel_for_async without execution policy\n"] st
  let st2 := kokkosDispatch .parallelFor none (countPolicy dflt work_count) args st1
  detail.get_future.call (sel dflt) (defaultInstance dflt) st2

/-- Lines 40-48: `parallel_for_async(label, policy, args...)`. -/
def parallel_for_async_label {β : Type} (sel : SpaceKind → Strategy) (label : String)
    (policy : RangePolicy) (args : Nat → β) (st : State β) : Future × State β :=
  let st1 :=
    emit [Event.print "calling parallel_for_async with label and execution policy\n"] st
  let st2 := kokkosDispatch .parallelFor (some label) policy args st1
  detail.get_future.call (sel policy.space.kind) policy.space st2

/-- Lines 50-59: `parallel_reduce_async(policy, args...)`. -/
def parallel_reduce_async {β : Type} (sel : SpaceKind → Strategy)
    (policy : RangePolicy) (args : Nat → β) (st : State β) : Future × State β :=
  let st1 := emit [Event.print "calling parallel_reduce_async with execution policy\n"] st
  let st2 := kokkosDispatch .parallelReduce none policy args st1
  detail.get_future.call (sel policy.space.kind) policy.space st2

/-- Lines 61-68: `parallel_reduce_async(work_count, args...)`. -/
def parallel_reduce_async_count {β : Type} (sel : SpaceKind → Strategy)
    (dflt : SpaceKind) (work_count : Nat) (args : Nat → β) (st : State β) :
    Future × State β :=
  let st1 :=
    emit [Event.print "calling parallel_reduce_async without execution policy\n"] st
  let st2 := kokkosDispatch .parallelReduce none (countPolicy dflt work_count) args st1
  detail.get_future.call (sel dflt) (defaultInstance dflt) st2

/-- Lines 70-78: `parallel_reduce_async(label, policy, args...)`. -/
def parallel_reduce_async_label {β : Type} (sel : SpaceKind → Strategy) (label : String)
    (policy : RangePolicy) (args : Nat → β) (st : State β) : Future × State β :=
  let st1 :=
    emit [Event.print "calling parallel_reduce_async with label and execution policy\n"] st
  let st2 := kokkosDispatch .parallelReduce (some label) policy args st1
  detail.get_future.call (sel policy.space.kind) policy.space st2

/-- Lines 80-89: `parallel_scan_async(policy, args...)`. -/
def parallel_scan_async {β : Type} (sel : SpaceKind → Strategy)
    (policy : RangePolicy) (args : Nat → β) (st : State β) : Future × State β :=
  let st1 := emit [Event.print "calling parallel_scan_async with execution policy\n"] st
  let st2 := kokkosDispatch .parallelScan none policy args st1
  detail.get_future.call (sel policy.space.kind) policy.space st2

/-- Lines 91-98: `parallel_scan_async(work_count, args...)`. -/
def parallel_scan_async_count {β : Type} (sel : SpaceKind → Strategy)
    (dflt : SpaceKind) (work_count : Nat) (args : Nat → β) (st : State β) :
    Future × State β :=
  let st1 :=
    emit [Event.print "calling parallel_scan_async without execution policy\n"] st
  let st2 := kokkosDispatch .parallelScan none (countPolicy dflt work_count) args st1
  detail.get_future.call (sel dflt) (defaultInstance dflt) st2

/-- Lines 100-108: `parallel_scan_async(label, policy, args...)`. -/
def parallel_scan_async_label {β : Type} (sel : SpaceKind → Strategy) (label : String)
    (policy : RangePolicy) (args : Nat → β) (st : State β) : Future × State β :=
  let st1 :=
    emit [Event.print "calling parallel_scan_async with label and execution policy\n"] st
  let st2 := kokkosDispatch .parallelScan (some label) policy args st1
  detail.get_future.call (sel policy.space.kind) policy.space st2

/-- The three call shapes of a dispatch wrapper. -/
inductive Shape where
  | policy (p : RangePolicy)
  | count (work_count : Nat)
  | labeled (label : String) (p : RangePolicy)
  deriving DecidableEq, Repr

/-- The nine entry points of `parallel.hpp`, by dispatch kind and call shape. -/
def wrapper {β : Type} (sel : SpaceKind → Strategy) (dflt : SpaceKind)
    (kind : DispatchKind) (shape : Shape) (args : Nat → β) (st : State β) :
    Future × State β :=
  match kind, shape with
  | .parallelFor, .policy p => parallel_for_async sel p args st
  | .parallelFor, .count n => parallel_for_async_count sel dflt n args st
  | .parallelFor, .labeled l p => parallel_for_async_label sel l p args st
  | .parallelReduce, .policy p => parallel_reduce_async sel p args st
  | .parallelReduce, .count n => parallel_reduce_async_count sel dflt n args st
  | .parallelReduce, .labeled l p => parallel_reduce_async_label sel l p args st
  | .parallelScan, .policy p => parallel_scan_async sel p args st
  | .parallelScan, .count n => parallel_scan_async_count sel dflt n args st
  | .parallelScan, .labeled l p => parallel_scan_async_label sel l p args st

/-- The policy a call shape dispatches under. -/
def Shape.toPolicy (dflt : SpaceKind) : Shape → RangePolicy
  | .policy p => p
  | .count n => countPolicy dflt n
  | .labeled _ p => p

/-- The label a call shape hands to the backend. -/
def Shape.label : Shape → Option String
  | .policy _ => none
  | .count _ => none
  | .labeled l _ => some l

/-! ## `executors.hpp` -/

/-- One call of a work function: the function and its arguments, in order. -/
structure Invocation (F V : Type) where
  fn : F
  args : List V
  deriving DecidableEq, Repr

/-- The call `hpx::util::invoke_fused_r<void>(f, t)`: `f` applied to the elements of the tuple. -/
def invoke_fused {F V : Type} (f : F) (t : List V) : Invocation F V := ⟨f, t⟩

/-- The pack `hpx::util::get<Is>(t)...`: the tuple elements at the indices of the pack, in
the order of the pack; undefined when an index is outside the tuple. -/
def getPack {V : Type} (t : List V) : List Nat → Option (List V)
  | [] => some []
  | i :: is =>
    match t[i]?, getPack t is with
    | some x, some xs => some (x :: xs)
    | _, _ => none

/-- Lines 25-30: `detail::invoke_helper(index_pack<Is...>, f, a, t)` calls
`f(a, get<Is>(t)...)`. -/
def detail.invoke_helper {F V : Type} (Is : List Nat) (f : F) (a : V) (t : List V) :
    Option (Invocation F V) :=
  (getPack t Is).map fun xs => ⟨f, a :: xs⟩

/-- The type `hpx::util::detail::fused_index_pack<Tuple>::type`: the indices `0, ..., k-1` of
a tuple of size `k`. -/
def fused_index_pack {V : Type} (t : List V) : List Nat := List.range t.length

/-- The class `executor<ExecutionSpace>`: the instance it was constructed with. -/
structure executor where
  inst : Instance
  deriving DecidableEq, Repr

/-- What a work item of an executor dispatch does: the log lines it writes (format
and `int` argument), and the one call of the work function it makes, or nothing
defined (a read outside the sequence). -/
structure Kernel (F V : Type) where
  logged : List (String × Int)
  call : Option (Invocation F V)

/-- The conversion of a dispatch index to the `int` parameter of a functor, for a
32-bit two's complement `int`: the value modulo `2 ^ 32` in
`[-2 ^ 31, 2 ^ 31)`. -/
def narrowInt (k : Nat) : Int :=
  if k % 2 ^ 32 < 2 ^ 31 then ((k % 2 ^ 32 : Nat) : Int)
  else ((k % 2 ^ 32 : Nat) : Int) - 2 ^ 32

/-- Lines 44-51: `executor::post(f, ts...)`.  The future of the wrapper is dropped. -/
def executor.post {F V : Type} (sel : SpaceKind → Strategy) (ex : executor) (f : F)
    (ts : List V) (st : State (Kernel F V)) : State (Kernel F V) :=
  let ts_pack := ts
  (parallel_for_async sel
    (require ⟨ex.inst, 0, 1, none⟩ WorkItemProperty.HintLightWeight)
    (fun _ => ⟨[], some (invoke_fused f ts_pack)⟩) st).2

/-- Lines 53-61: `executor::async_execute(f, ts...)`. -/
def executor.async_execute {F V : Type} (sel : SpaceKind → Strategy) (ex : executor)
    (f : F) (ts : List V) (st : State (Kernel F V)) : Future × State (Kernel F V) :=
  let ts_pack := ts
  parallel_for_async sel
    (require ⟨ex.inst, 0, 1, none⟩ WorkItemProperty.HintLightWeight)
    (fun _ => ⟨[], some (invoke_fused f ts_pack)⟩) st

/-- The functor of `bulk_async_execute` (lines 75-81), `KOKKOS_LAMBDA(int i)`: it
logs `i`, then calls `detail::invoke_helper(index_pack_type{}, f, *(b + i), ts_pack)`,
where `*(b + i)` is the element of the sequence at offset `i`, defined when
`0 ≤ i` and `i` is below the length of the sequence. -/
def bulkKernel {F V : Type} (f : F) (b : List V) (ts_pack : List V) (i : Int) :
    Kernel F V :=
  { logged := [("bulk_async_execute i = %d", i)]
    call :=
      if 0 ≤ i then
        match b[i.toNat]? with
        | some a => detail.invoke_helper (fused_index_pack ts_pack) f a ts_pack
        | none => none
      else none }

/-- Lines 63-88: `executor::bulk_async_execute(f, s, ts...)`. -/
def executor.bulk_async_execute {F V : Type} (sel : SpaceKind → Strategy)
    (ex : executor) (f : F) (s : List V) (ts : List V) (st : State (Kernel F V)) :
    List Future × State (Kernel F V) :=
  let st0 := emit [Event.log "bulk_async_execute"] st
  let ts_pack := ts
  let size := s.length
  let b := s
  let r := parallel_for_async sel
    (require ⟨ex.inst, 0, size, none⟩ WorkItemProperty.HintLightWeight)
    (fun k => bulkKernel f b ts_pack (narrowInt k)) st0
  let result : List Future := []
  let result := result ++ [Future.thenSync r.1]
  (result, r.2)

/-- The conversion `std::size_t(z)` for a `w`-bit `std::size_t`. -/
def size_t (w : Nat) (z : Int) : Nat := (z % 2 ^ w).toNat

/-- Lines 90-95: `executor::get_chunk_size(params, f, cores, count)` returns
`std::size_t(-1)`. -/
def executor.get_chunk_size {P F : Type} (w : Nat) (_ex : executor) (_params : P)
    (_f : F) (_cores : Nat) (_count : Nat) : Nat :=
  size_t w (-1)

/-! ## Concrete data used in the examples -/

/-- A state with nothing submitted. -/
def emptyState (β : Type) : State β := ⟨[], [], 0, []⟩

/-- An executor on the default serial instance. -/
def serialExecutor : executor := ⟨defaultInstance .serial⟩

/-- A build in which every type uses the primary template. -/
def fenceOnly : SpaceKind → Strategy := fun _ => .fence

/-- A CUDA build that does not set the switch. -/
def cudaBuildUnset : MacroEnv := [("KOKKOS_ENABLE_CUDA", PPToken.num 1)]

/-- A CUDA build whose stream futures use events. -/
def eventOnly : SpaceKind → Strategy := fun _ => .stream .event

/-- The state after `parallel_for_async(2, f)` on an empty CUDA system and after
the backend has finished item `1` and then item `0`. -/
def twoFinished : State Nat :=
  ⟨[], [⟨defaultInstance .cuda, 0, 1, 1⟩, ⟨defaultInstance .cuda, 0, 0, 0⟩], 1,
    [Event.print "calling parallel_for_async without execution policy\n",
     Event.dispatch .parallelFor none ⟨defaultInstance .cuda, 0, 2, none⟩ 0,
     Event.log "getting future from stream %p",
     Event.futureWithEvent (defaultInstance .cuda)]⟩

/-- Whether a work item is a call of the work function `f`. -/
def callsFn {F V : Type} [DecidableEq F] (f : F) (w : WorkItem (Kernel F V)) : Bool :=
  match w.body.call with
  | some inv => decide (inv.fn = f)
  | none => false

/-- The shared counter of a work function `f` that increments it: the number of
finished calls of `f`. -/
def counter {F V : Type} [DecidableEq F] (f : F) (st : State (Kernel F V)) : Nat :=
  st.finished.countP (callsFn f)

/-- The calls of `f` that are submitted and not finished. -/
def pendingCalls {F V : Type} [DecidableEq F] (f : F) (st : State (Kernel F V)) : Nat :=
  st.outstanding.countP (callsFn f)

/-- The state after `post(7, 5)` on an empty CUDA system, `get_future` for the
same instance, and the backend finishing the one item. -/
def postFinished : State (Kernel Nat Nat) :=
  ⟨[], [⟨defaultInstance .cuda, 0, 0, ⟨[], some ⟨7, [5]⟩⟩⟩], 1,
    [Event.print "calling parallel_for_async with execution policy\n",
     Event.dispatch .parallelFor none
       ⟨defaultInstance .cuda, 0, 1, some WorkItemProperty.HintLightWeight⟩ 0,
     Event.log "getting future from stream %p",
     Event.futureWithEvent (defaultInstance .cuda),
     Event.log "getting future from stream %p",
     Event.futureWithEvent (defaultInstance .cuda)]⟩

/-- The trace without the diagnostic prints and with the labels of the dispatch
calls erased. -/
def unlabeledTrace (tr : List Event) : List Event :=
  (tr.filter fun e =>
    match e with
    | .print _ => false
    | _ => true).map fun e =>
    match e with
    | .dispatch k _ p id => .dispatch k none p id
    | e => e

/-- The future a completion strategy returns on an instance when `n` dispatches
have been numbered. -/
def strategyFuture (s : Strategy) (inst : Instance) (n : Nat) : Future :=
  match s with
  | .fence => Future.ready
  | _ => Future.after inst n

/-- The host events of a completion strategy on an instance. -/
def strategyEvents (s : Strategy) (inst : Instance) : List Event :=
  match s with
  | .fence =>
    [Event.fence inst, Event.log "getting generic ready future after fencing",
      Event.makeReadyFuture]
  | .stream .event => [Event.log "getting future from stream %p", Event.futureWithEvent inst]
  | .stream .callback =>
    [Event.log "getting future from stream %p", Event.futureWithCallback inst]
  | .nested => [Event.log "getting future from HPX instance %x", Event.implGetFuture inst]

/-- A serial instance with two items outstanding on it and one on another
instance. -/
def busyState : State Nat :=
  ⟨[⟨defaultInstance .serial, 0, 0, 11⟩, ⟨⟨.openmp, 3⟩, 1, 0, 22⟩,
    ⟨defaultInstance .serial, 2, 5, 33⟩], [], 3, []⟩

/-- The facts about the dispatch numbered `d` on `inst` with work items `items`
that every later state keeps. -/
structure Tracks {β : Type} (d : Nat) (inst : Instance) (items : List (WorkItem β))
    (fenced : Prop) (st : State β) : Prop where
  numbered : d < st.nextDispatch
  bounded : ∀ w ∈ st.outstanding, w.dispatch < st.nextDispatch
  located : ∀ w ∈ st.outstanding, w.dispatch = d → w.inst = inst
  kept : ∀ w ∈ items, w ∈ st.finished ∨ w ∈ st.outstanding
  drained : fenced → ∀ w ∈ st.outstanding, w.dispatch ≠ d

/-- What one-way submission followed by an independent `get_future` on the same
instance guarantees about the calls of `f`, in every later state. -/
structure Posted {F V : Type} [DecidableEq F] (f : F) (inst : Instance) (d c : Nat)
    (fenced : Prop) (st : State (Kernel F V)) : Prop where
  total : counter f st + pendingCalls f st = c + 1
  located : ∀ w ∈ st.outstanding, callsFn f w = true → w.inst = inst ∧ w.dispatch = d
  drained : fenced → ∀ w ∈ st.outstanding, w.inst ≠ inst

/-! ## Theorems -/

theorem size_t_neg_one (w : Nat) : size_t w (-1) = 2 ^ w - 1 := by
  unfold size_t
  have hpos : (0 : Int) < 2 ^ w := by positivity
  have h1 : ((-1 : Int) % 2 ^ w) = 2 ^ w - 1 := by
    rw [← Int.add_emod_self]
    have : (-1 + (2 : Int) ^ w) = 2 ^ w - 1 := by ring
    rw [this]
    exact Int.emod_eq_of_lt (by omega) (by omega)
  rw [h1]
  have h2 : ((2 : Int) ^ w - 1) = (((2 ^ w - 1 : Nat)) : Int) := by
    have : 1 ≤ 2 ^ w := Nat.one_le_two_pow
    push_cast [Nat.cast_sub this]
    rfl
  rw [h2, Int.toNat_ofNat]

/-- C5: whatever the parameters object, the function, the core count and the
work count are, `executor::get_chunk_size` returns the largest value of the
`w`-bit size type, `2 ^ w - 1`. -/
theorem get_chunk_size_is_max {P F : Type} (w : Nat) (ex : executor) (params : P)
    (f : F) (cores count : Nat) :
    executor.get_chunk_size w ex params f cores count = 2 ^ w - 1 := by
  unfold executor.get_chunk_size
  exact size_t_neg_one w

theorem defined_defineDefault (env : MacroEnv) :
    defined (defineDefaultFutureType env) futureTypeSwitch = true := by
  unfold defineDefaultFutureType
  by_cases h : defined env futureTypeSwitch = true
  · simp [h]
  · simp only [Bool.not_eq_true] at h
    simp only [h, Bool.not_false, if_true]
    unfold defined at h ⊢
    rw [List.lookup_append]
    cases hl : List.lookup futureTypeSwitch env with
    | none => simp
    | some v => simp

theorem defineDefault_idem (env : MacroEnv) :
    defineDefaultFutureType (defineDefaultFutureType env) = defineDefaultFutureType env := by
  have h := defined_defineDefault env
  generalize defineDefaultFutureType env = e at h
  simp [defineDefaultFutureType, h]

theorem defined_defineDefault_of_defined (env : MacroEnv) (name : String)
    (h : defined env name = true) : defined (defineDefaultFutureType env) name = true := by
  unfold defineDefaultFutureType
  by_cases hs : defined env futureTypeSwitch = true
  · simp [hs, h]
  · simp only [Bool.not_eq_true] at hs
    simp only [hs, Bool.not_false, if_true]
    unfold defined at h ⊢
    rw [List.lookup_append]
    cases hl : List.lookup name env with
    | none => simp [hl] at h
    | some v => simp

/-- The build of a GPU configuration, in terms of the mode chosen by the `#if`
chain after the default has been defined. -/
theorem compileFutureHpp_gpu (env : MacroEnv)
    (hgpu : defined env "KOKKOS_ENABLE_CUDA" = true ∨ defined env "KOKKOS_ENABLE_HIP" = true) :
    (∀ e, selectStreamMode (defineDefaultFutureType env) = .error e →
      compileFutureHpp env = .error e) ∧
    (∀ m, selectStreamMode (defineDefaultFutureType env) = .ok m →
      ∃ tbl, compileFutureHpp env = .ok tbl ∧
        (defined env "KOKKOS_ENABLE_CUDA" = true → tbl .cuda = .stream m) ∧
        (defined env "KOKKOS_ENABLE_HIP" = true → tbl .hip = .stream m)) := by
  by_cases hc : defined env "KOKKOS_ENABLE_CUDA" = true
  · by_cases hh : defined env "KOKKOS_ENABLE_HIP" = true
    · have hh1 := defined_defineDefault_of_defined env _ hh
      constructor
      · intro e he
        simp [compileFutureHpp, streamBlock, hc, he]
      · intro m hm
        simp [compileFutureHpp, streamBlock, hc, hm, hh1, defineDefault_idem]
    · simp only [Bool.not_eq_true] at hh
      constructor
      · intro e he
        simp [compileFutureHpp, streamBlock, hc, he]
      · intro m hm
        by_cases hh1 : defined (defineDefaultFutureType env) "KOKKOS_ENABLE_HIP" = true
        · simp [compileFutureHpp, streamBlock, hc, hm, hh1, hh, defineDefault_idem]
        · simp only [Bool.not_eq_true] at hh1
          simp [compileFutureHpp, streamBlock, hc, hm, hh1, hh]
  · simp only [Bool.not_eq_true] at hc
    have hh : defined env "KOKKOS_ENABLE_HIP" = true := by
      rcases hgpu with h | h
      · simp [hc] at h
      · exact h
    constructor
    · intro e he
      simp [compileFutureHpp, streamBlock, hc, hh, he]
    · intro m hm
      simp [compileFutureHpp, streamBlock, hc, hm, hh]

theorem defined_append_switch (env : MacroEnv) (name : String) :
    defined (env ++ [(futureTypeSwitch, PPToken.ident "callback")]) name
      = (defined env name || decide (name = futureTypeSwitch)) := by
  unfold defined
  rw [List.lookup_append]
  cases hl : List.lookup name env with
  | none =>
    by_cases hn : name = futureTypeSwitch
    · simp [hn]
    · have hb : (name == futureTypeSwitch) = false := by simp [hn]
      simp [List.lookup_cons, hn, hb]
  | some v => simp

/-- A guarded stream block that is compiled gives the same result whether the
switch is unset or set to `callback`. -/
theorem streamBlock_unset (env : MacroEnv) (name : String)
    (hu : defined env futureTypeSwitch = false) (hd : defined env name = true) :
    streamBlock name env
      = streamBlock name (env ++ [(futureTypeSwitch, PPToken.ident "callback")]) := by
  have h1 : defineDefaultFutureType env
      = env ++ [(futureTypeSwitch, PPToken.ident "callback")] := by
    simp [defineDefaultFutureType, hu]
  have h2 : defineDefaultFutureType (env ++ [(futureTypeSwitch, PPToken.ident "callback")])
      = env ++ [(futureTypeSwitch, PPToken.ident "callback")] := by
    rw [← h1]; exact defineDefault_idem env
  have h3 : defined (env ++ [(futureTypeSwitch, PPToken.ident "callback")]) name = true := by
    rw [defined_append_switch, hd]; rfl
  unfold streamBlock
  rw [h3, hd, h2, h1]
  simp only [if_true]

/-- C8, as stated, fails: a CUDA build that leaves the switch unset is not
rejected. -/
theorem unset_switch_counterexample :
    defined cudaBuildUnset "KOKKOS_ENABLE_CUDA" = true ∧
    defined cudaBuildUnset futureTypeSwitch = false ∧
    (compileFutureHpp cudaBuildUnset).toBool = true := by
  decide

/-- C8, amended: in a build with a GPU stream strategy the mode is chosen by the
value the switch has in the `#if` expression after the default has been
defined: `0` gives the event mode, `1` the callback mode (for both stream
types), every other value is the build error; and a build that leaves the
switch unset is compiled exactly as the build that sets it to `callback`. -/
theorem stream_mode_selection (env : MacroEnv)
    (hgpu : defined env "KOKKOS_ENABLE_CUDA" = true ∨ defined env "KOKKOS_ENABLE_HIP" = true) :
    (ppValue (defineDefaultFutureType env) (.ident futureTypeSwitch) = 0 →
      ∃ tbl, compileFutureHpp env = .ok tbl ∧
        (defined env "KOKKOS_ENABLE_CUDA" = true → tbl .cuda = .stream .event) ∧
        (defined env "KOKKOS_ENABLE_HIP" = true → tbl .hip = .stream .event)) ∧
    (ppValue (defineDefaultFutureType env) (.ident futureTypeSwitch) = 1 →
      ∃ tbl, compileFutureHpp env = .ok tbl ∧
        (defined env "KOKKOS_ENABLE_CUDA" = true → tbl .cuda = .stream .callback) ∧
        (defined env "KOKKOS_ENABLE_HIP" = true → tbl .hip = .stream .callback)) ∧
    (ppValue (defineDefaultFutureType env) (.ident futureTypeSwitch) ≠ 0 →
      ppValue (defineDefaultFutureType env) (.ident futureTypeSwitch) ≠ 1 →
      compileFutureHpp env =
        .error "HPX_KOKKOS_CUDA_FUTURE_TYPE is invalid (must be callback or event)") ∧
    (defined env futureTypeSwitch = false →
      compileFutureHpp env =
        compileFutureHpp (env ++ [(futureTypeSwitch, PPToken.ident "callback")])) := by
  obtain ⟨herr, hok⟩ := compileFutureHpp_gpu env hgpu
  refine ⟨?_, ?_, ?_, ?_⟩
  · intro hv
    exact hok .event (by simp [selectStreamMode, hv])
  · intro hv
    exact hok .callback (by simp [selectStreamMode, hv])
  · intro h0 h1
    exact herr _ (by simp [selectStreamMode, h0, h1])
  · intro hu
    by_cases hcd : defined env "KOKKOS_ENABLE_CUDA" = true
    · unfold compileFutureHpp
      rw [streamBlock_unset env _ hu hcd]
    · have hhd : defined env "KOKKOS_ENABLE_HIP" = true := by
        rcases hgpu with h | h
        · exact absurd h hcd
        · exact h
      have hcd2 : defined (env ++ [(futureTypeSwitch, PPToken.ident "callback")])
          "KOKKOS_ENABLE_CUDA" = false := by
        rw [defined_append_switch]
        simpa [futureTypeSwitch] using hcd
      simp only [Bool.not_eq_true] at hcd
      have h1 : streamBlock "KOKKOS_ENABLE_CUDA" env = .ok (env, none) := by
        simp [streamBlock, hcd]
      have h2 : streamBlock "KOKKOS_ENABLE_CUDA"
          (env ++ [(futureTypeSwitch, PPToken.ident "callback")])
          = .ok (env ++ [(futureTypeSwitch, PPToken.ident "callback")], none) := by
        simp [streamBlock, hcd2]
      unfold compileFutureHpp
      rw [h1, h2]
      simp only
      rw [streamBlock_unset env _ hu hhd]

/-- Witness for `stream_mode_selection`: a CUDA build that sets the switch to `1`
compiles with the callback mode for `Kokkos::Cuda`. -/
theorem stream_mode_selection_witness :
    ∃ tbl, compileFutureHpp
        [("KOKKOS_ENABLE_CUDA", PPToken.num 1), (futureTypeSwitch, PPToken.num 1)] = .ok tbl ∧
      tbl .cuda = .stream .callback := by
  obtain ⟨tbl, h, hc, _⟩ :=
    (stream_mode_selection
      [("KOKKOS_ENABLE_CUDA", PPToken.num 1), (futureTypeSwitch, PPToken.num 1)]
      (Or.inl (by decide))).2.1 (by decide)
  exact ⟨tbl, h, hc (by decide)⟩

/-! ### The executor -/

theorem workItems_unit {β : Type} (inst : Instance) (h : Option WorkItemProperty) (id : Nat)
    (body : Nat → β) :
    workItems ⟨inst, 0, 1, h⟩ id body = [⟨inst, id, 0, body 0⟩] := by
  simp [workItems, List.range']

/-- C9: `async_execute(f, ts...)` leaves the system in the state `post(f, ts...)`
leaves it in, and that state is reached by one `parallel_for` dispatch without
label under the policy `[0, 1)` on the bound instance with the light-weight hint,
whose only work item (index `0`) calls `f` once with `ts`; what `async_execute`
returns in addition is the completion future obtained for that instance right
after the dispatch. -/
theorem async_execute_refines_post {F V : Type} (sel : SpaceKind → Strategy)
    (ex : executor) (f : F) (ts : List V) (st : State (Kernel F V)) :
    (executor.async_execute sel ex f ts st).2 = executor.post sel ex f ts st ∧
    ∃ sub : State (Kernel F V),
      executor.async_execute sel ex f ts st
        = detail.get_future.call (sel ex.inst.kind) ex.inst sub ∧
      sub.outstanding
        = st.outstanding ++ [⟨ex.inst, st.nextDispatch, 0, ⟨[], some ⟨f, ts⟩⟩⟩] ∧
      sub.finished = st.finished ∧
      sub.nextDispatch = st.nextDispatch + 1 ∧
      sub.trace = st.trace ++
        [Event.print "calling parallel_for_async with execution policy\n",
         Event.dispatch .parallelFor none
           ⟨ex.inst, 0, 1, some WorkItemProperty.HintLightWeight⟩ st.nextDispatch] := by
  refine ⟨rfl, ⟨_, rfl, ?_, rfl, rfl, ?_⟩⟩
  · simp [kokkosDispatch, emit, require, workItems_unit, invoke_fused]
  · simp [kokkosDispatch, emit, require]

/-! ### The dispatch wrappers -/

theorem unlabeledTrace_append (a b : List Event) :
    unlabeledTrace (a ++ b) = unlabeledTrace a ++ unlabeledTrace b := by
  simp [unlabeledTrace]

theorem get_future_call_fst {β : Type} (s : Strategy) (inst : Instance) (st : State β) :
    (detail.get_future.call s inst st).1 = strategyFuture s inst st.nextDispatch := by
  cases s with
  | fence => rfl
  | stream m => cases m <;> rfl
  | nested => rfl

theorem get_future_call_outstanding {β : Type} (s : Strategy) (inst : Instance)
    (st : State β) :
    (detail.get_future.call s inst st).2.outstanding
      = if s = .fence then st.outstanding.filter (fun w => decide (w.inst ≠ inst))
        else st.outstanding := by
  cases s with
  | fence => rfl
  | stream m => cases m <;> rfl
  | nested => rfl

theorem get_future_call_finished {β : Type} (s : Strategy) (inst : Instance)
    (st : State β) :
    (detail.get_future.call s inst st).2.finished
      = if s = .fence then
          st.finished ++ st.outstanding.filter (fun w => decide (w.inst = inst))
        else st.finished := by
  cases s with
  | fence => rfl
  | stream m => cases m <;> simp [detail.get_future.call, emit]
  | nested => simp [detail.get_future.call, emit]

theorem get_future_call_nextDispatch {β : Type} (s : Strategy) (inst : Instance)
    (st : State β) :
    (detail.get_future.call s inst st).2.nextDispatch = st.nextDispatch := by
  cases s with
  | fence => rfl
  | stream m => cases m <;> rfl
  | nested => rfl

theorem get_future_call_trace {β : Type} (s : Strategy) (inst : Instance)
    (st : State β) :
    (detail.get_future.call s inst st).2.trace = st.trace ++ strategyEvents s inst := by
  cases s with
  | fence => simp [detail.get_future.call, emit, fence, strategyEvents]
  | stream m => cases m <;> simp [detail.get_future.call, emit, strategyEvents]
  | nested => simp [detail.get_future.call, emit, strategyEvents]

/-- C10: for each of the three dispatch kinds, the labeled policy wrapper and
the unlabeled policy wrapper return the same future and leave the same
outstanding items, finished items and dispatch count; their host traces differ
only in the diagnostic print and in the label of the backend dispatch call,
which carries the label given. -/
theorem labeled_same_completion {β : Type} (sel : SpaceKind → Strategy)
    (dflt : SpaceKind) (kind : DispatchKind) (label : String) (policy : RangePolicy)
    (args : Nat → β) (st : State β) :
    (wrapper sel dflt kind (.labeled label policy) args st).1
      = (wrapper sel dflt kind (.policy policy) args st).1 ∧
    (wrapper sel dflt kind (.labeled label policy) args st).2.outstanding
      = (wrapper sel dflt kind (.policy policy) args st).2.outstanding ∧
    (wrapper sel dflt kind (.labeled label policy) args st).2.finished
      = (wrapper sel dflt kind (.policy policy) args st).2.finished ∧
    (wrapper sel dflt kind (.labeled label policy) args st).2.nextDispatch
      = (wrapper sel dflt kind (.policy policy) args st).2.nextDispatch ∧
    unlabeledTrace (wrapper sel dflt kind (.labeled label policy) args st).2.trace
      = unlabeledTrace (wrapper sel dflt kind (.policy policy) args st).2.trace ∧
    Event.dispatch kind (some label) policy st.nextDispatch
      ∈ (wrapper sel dflt kind (.labeled label policy) args st).2.trace := by
  cases kind <;>
    simp [wrapper, parallel_for_async, parallel_for_async_label, parallel_reduce_async,
      parallel_reduce_async_label, parallel_scan_async, parallel_scan_async_label,
      get_future_call_outstanding, get_future_call_finished,
      get_future_call_nextDispatch, get_future_call_trace, unlabeledTrace_append,
      get_future_call_fst, kokkosDispatch, emit] <;>
    simp [unlabeledTrace]

theorem mem_workItems {β : Type} (policy : RangePolicy) (id : Nat) (body : Nat → β)
    (w : WorkItem β) :
    w ∈ workItems policy id body ↔
      ∃ i, policy.first ≤ i ∧ i < policy.first + (policy.last - policy.first) ∧
        w = ⟨policy.space, id, i, body i⟩ := by
  simp only [workItems, List.mem_map, List.mem_range'_1]
  constructor
  · rintro ⟨i, hi, rfl⟩
    exact ⟨i, hi.1, hi.2, rfl⟩
  · rintro ⟨i, h1, h2, rfl⟩
    exact ⟨i, ⟨h1, h2⟩, rfl⟩

/-- Every entry point is: print, dispatch under the policy of the shape, then the
completion strategy on the instance of that policy. -/
theorem wrapper_eq {β : Type} (sel : SpaceKind → Strategy) (dflt : SpaceKind)
    (kind : DispatchKind) (shape : Shape) (args : Nat → β) (st : State β) :
    ∃ msg, wrapper sel dflt kind shape args st
      = detail.get_future.call (sel (shape.toPolicy dflt).space.kind)
          (shape.toPolicy dflt).space
          (kokkosDispatch kind shape.label (shape.toPolicy dflt) args
            (emit [Event.print msg] st)) := by
  cases kind <;> cases shape <;> exact ⟨_, rfl⟩

/-- C7: every dispatch wrapper first submits and then resolves the future on
the instance it submitted to.  For each dispatch kind, the policy shape and the
labeled policy shape return what the completion strategy of the type of
`policy.space()` gives on `policy.space()` in the state reached by the backend
dispatch under that policy; the count shape returns what the strategy of the
default execution space gives on a default-constructed instance in the state
reached by the dispatch over `[0, work_count)` on that instance; every work
item a dispatch adds is outstanding on the instance of its policy; and the host
trace of a wrapper is its print, then the backend dispatch, then the calls of
the completion strategy on the instance of the dispatch. -/
theorem wrapper_resolves_on_dispatch_instance {β : Type} (sel : SpaceKind → Strategy)
    (dflt : SpaceKind) (kind : DispatchKind) (args : Nat → β) (st : State β) :
    (∀ p : RangePolicy, ∃ msg,
      wrapper sel dflt kind (.policy p) args st
        = detail.get_future.call (sel p.space.kind) p.space
            (kokkosDispatch kind none p args (emit [Event.print msg] st))) ∧
    (∀ (label : String) (p : RangePolicy), ∃ msg,
      wrapper sel dflt kind (.labeled label p) args st
        = detail.get_future.call (sel p.space.kind) p.space
            (kokkosDispatch kind (some label) p args (emit [Event.print msg] st))) ∧
    (∀ n : Nat, ∃ msg,
      wrapper sel dflt kind (.count n) args st
        = detail.get_future.call (sel dflt) (defaultInstance dflt)
            (kokkosDispatch kind none ⟨defaultInstance dflt, 0, n, none⟩ args
              (emit [Event.print msg] st))) ∧
    (∀ (p : RangePolicy) (label : Option String) (s : State β),
      ∀ w ∈ (kokkosDispatch kind label p args s).outstanding,
        w ∈ s.outstanding ∨ (w.inst = p.space ∧ w.dispatch = s.nextDispatch)) ∧
    (∀ shape : Shape, ∃ msg,
      (wrapper sel dflt kind shape args st).2.trace
        = st.trace ++
          [Event.print msg,
           Event.dispatch kind shape.label (shape.toPolicy dflt) st.nextDispatch] ++
          strategyEvents (sel (shape.toPolicy dflt).space.kind)
            (shape.toPolicy dflt).space) := by
  refine ⟨?_, ?_, ?_, ?_, ?_⟩
  · intro p
    cases kind <;> exact ⟨_, rfl⟩
  · intro label p
    cases kind <;> exact ⟨_, rfl⟩
  · intro n
    cases kind <;> exact ⟨_, rfl⟩
  · intro p label s w hw
    simp only [kokkosDispatch, List.mem_append, mem_workItems] at hw
    rcases hw with hw | ⟨i, _, _, rfl⟩
    · exact Or.inl hw
    · exact Or.inr ⟨rfl, rfl⟩
  · intro shape
    obtain ⟨msg, h⟩ := wrapper_eq sel dflt kind shape args st
    refine ⟨msg, ?_⟩
    rw [h, get_future_call_trace]
    simp [kokkosDispatch, emit]

/-! ### Bulk submission -/

/-- C1, as stated, fails: for a sequence of length 0 and for one of length 2 the
vector returned by `bulk_async_execute` does not have the length of the
sequence. -/
theorem bulk_async_execute_length_counterexample :
    (executor.bulk_async_execute fenceOnly serialExecutor (7 : Nat) ([] : List Nat) []
        (emptyState _)).1.length ≠ ([] : List Nat).length ∧
    (executor.bulk_async_execute fenceOnly serialExecutor (7 : Nat) [10, 20] []
        (emptyState _)).1.length ≠ [10, 20].length := by
  constructor <;> simp [executor.bulk_async_execute]

/-- C1, amended: for every sequence (of any length), every work function and
all auxiliary arguments, the vector `bulk_async_execute` returns holds exactly
one future handle: the future that `parallel_for_async` returned for the single
backing dispatch over `[0, N)` on the bound instance, behind an empty
synchronous continuation.  That handle is the completion strategy's future for
the instance at the point right after the dispatch, and in every state a poll of
it reports what a poll of the backing future reports. -/
theorem bulk_async_execute_single_handle {F V : Type} (sel : SpaceKind → Strategy)
    (ex : executor) (f : F) (s ts : List V) (st : State (Kernel F V)) :
    (executor.bulk_async_execute sel ex f s ts st).1
      = [Future.thenSync
          (parallel_for_async sel
            (require ⟨ex.inst, 0, s.length, none⟩ WorkItemProperty.HintLightWeight)
            (fun k => bulkKernel f s ts (narrowInt k))
            (emit [Event.log "bulk_async_execute"] st)).1] ∧
    (executor.bulk_async_execute sel ex f s ts st).1
      = [Future.thenSync
          (strategyFuture (sel ex.inst.kind) ex.inst (st.nextDispatch + 1))] ∧
    (executor.bulk_async_execute sel ex f s ts st).1.length = 1 ∧
    (∀ (st' : State (Kernel F V)) (h : Future),
      h ∈ (executor.bulk_async_execute sel ex f s ts st).1 →
      isReady st' h
        = isReady st'
            (parallel_for_async sel
              (require ⟨ex.inst, 0, s.length, none⟩ WorkItemProperty.HintLightWeight)
              (fun k => bulkKernel f s ts (narrowInt k))
              (emit [Event.log "bulk_async_execute"] st)).1) := by
  refine ⟨rfl, ?_, rfl, ?_⟩
  · simp [executor.bulk_async_execute, parallel_for_async, get_future_call_fst,
      kokkosDispatch, emit, require]
  · intro st' h hm
    have hh : h = Future.thenSync
        (parallel_for_async sel
          (require ⟨ex.inst, 0, s.length, none⟩ WorkItemProperty.HintLightWeight)
          (fun k => bulkKernel f s ts (narrowInt k))
          (emit [Event.log "bulk_async_execute"] st)).1 := by
      simpa [executor.bulk_async_execute] using hm
    rw [hh]
    rfl

/-- C3: when the type of `inst` uses the generic strategy, `get_future(inst)`
fences `inst` before anything else it does, then makes a ready future, which is
what it returns (a poll of it in the state after the call reports ready); after
the call nothing is outstanding on `inst`, everything that was outstanding on
`inst` before the call is finished, and work on other instances is untouched. -/
theorem generic_get_future_fences {β : Type} (sel : SpaceKind → Strategy)
    (inst : Instance) (st : State β) (h : sel inst.kind = .fence) :
    (get_future sel inst st).1 = Future.ready ∧
    isReady (get_future sel inst st).2 (get_future sel inst st).1 = true ∧
    (get_future sel inst st).2.trace = st.trace ++
      [Event.fence inst, Event.log "getting generic ready future after fencing",
       Event.makeReadyFuture] ∧
    (∀ w ∈ (get_future sel inst st).2.outstanding, w.inst ≠ inst) ∧
    (∀ w ∈ st.outstanding, w.inst = inst → w ∈ (get_future sel inst st).2.finished) ∧
    (∀ w ∈ st.outstanding, w.inst ≠ inst → w ∈ (get_future sel inst st).2.outstanding) := by
  unfold get_future
  rw [h]
  refine ⟨rfl, rfl, ?_, ?_, ?_, ?_⟩
  · simp [detail.get_future.call, emit, fence]
  · intro w hw
    simp only [detail.get_future.call, emit, fence, List.mem_filter] at hw
    simpa using hw.2
  · intro w hw hi
    simp only [detail.get_future.call, emit, fence, List.mem_append, List.mem_filter]
    exact Or.inr ⟨hw, by simpa using hi⟩
  · intro w hw hi
    simp only [detail.get_future.call, emit, fence, List.mem_filter]
    exact ⟨hw, by simpa using hi⟩

/-- Witness for `generic_get_future_fences`: on a serial instance with work
outstanding, in a build where every type uses the primary template. -/
theorem generic_get_future_fences_witness :
    (get_future fenceOnly (defaultInstance .serial) busyState).1 = Future.ready ∧
    ∀ w ∈ (get_future fenceOnly (defaultInstance .serial) busyState).2.outstanding,
      w.inst ≠ defaultInstance .serial :=
  ⟨(generic_get_future_fences fenceOnly (defaultInstance .serial) busyState rfl).1,
   (generic_get_future_fences fenceOnly (defaultInstance .serial) busyState rfl).2.2.2.1⟩

/-! ### No premature readiness -/

theorem tracks_completes {β : Type} {d : Nat} {inst : Instance}
    {items : List (WorkItem β)} {fenced : Prop} {s t : State β}
    (h : Tracks d inst items fenced s) (hc : Completes s t) :
    Tracks d inst items fenced t := by
  cases hc with
  | item pre post w fin n tr =>
    have hsub : ∀ x, x ∈ pre ++ post → x ∈ pre ++ w :: post := by
      intro x hx
      simp only [List.mem_append, List.mem_cons] at hx ⊢
      tauto
    refine ⟨h.numbered, fun x hx => h.bounded x (hsub x hx),
      fun x hx => h.located x (hsub x hx), ?_, fun hf x hx => h.drained hf x (hsub x hx)⟩
    intro x hx
    have := h.kept x hx
    simp only [List.mem_append, List.mem_cons, List.mem_singleton] at this ⊢
    tauto

theorem tracks_submits {β : Type} {d : Nat} {inst : Instance}
    {items : List (WorkItem β)} {fenced : Prop} {s : State β}
    (h : Tracks d inst items fenced s) (kind : DispatchKind) (label : Option String)
    (policy : RangePolicy) (body : Nat → β) :
    Tracks d inst items fenced (kokkosDispatch kind label policy body s) := by
  have hn := h.numbered
  have hnew : ∀ x ∈ workItems policy s.nextDispatch body, x.dispatch = s.nextDispatch := by
    intro x hx
    obtain ⟨i, _, _, rfl⟩ := (mem_workItems _ _ _ _).1 hx
    rfl
  refine ⟨?_, ?_, ?_, ?_, ?_⟩
  · show d < s.nextDispatch + 1
    omega
  · intro x hx
    show x.dispatch < s.nextDispatch + 1
    rcases List.mem_append.1 hx with hx | hx
    · have := h.bounded x hx
      omega
    · have := hnew x hx
      omega
  · intro x hx hd
    rcases List.mem_append.1 hx with hx | hx
    · exact h.located x hx hd
    · have := hnew x hx
      omega
  · intro x hx
    rcases h.kept x hx with hk | hk
    · exact Or.inl hk
    · exact Or.inr (List.mem_append.2 (Or.inl hk))
  · intro hf x hx
    rcases List.mem_append.1 hx with hx | hx
    · exact h.drained hf x hx
    · have := hnew x hx
      omega

theorem tracks_steps {β : Type} {d : Nat} {inst : Instance}
    {items : List (WorkItem β)} {fenced : Prop} {s t : State β}
    (h : Tracks d inst items fenced s) (hr : Relation.ReflTransGen Step s t) :
    Tracks d inst items fenced t := by
  induction hr with
  | refl => exact h
  | tail _ hstep ih =>
    cases hstep with
    | completes hc => exact tracks_completes ih hc
    | submits kind label policy body _ => exact tracks_submits ih kind label policy body

/-- Right after a dispatch under `policy` followed by the completion strategy on
the instance of the policy, the dispatch is tracked. -/
theorem tracks_init {β : Type} (s : Strategy) (kind : DispatchKind)
    (label : Option String) (policy : RangePolicy) (args : Nat → β) (st : State β)
    (hwf : ∀ w ∈ st.outstanding, w.dispatch < st.nextDispatch) :
    Tracks st.nextDispatch policy.space (workItems policy st.nextDispatch args)
      (s = .fence)
      (detail.get_future.call s policy.space (kokkosDispatch kind label policy args st)).2 := by
  have hnew : ∀ x ∈ workItems policy st.nextDispatch args,
      x.dispatch = st.nextDispatch ∧ x.inst = policy.space := by
    intro x hx
    obtain ⟨i, _, _, rfl⟩ := (mem_workItems _ _ _ _).1 hx
    exact ⟨rfl, rfl⟩
  have hout : ∀ x ∈ (detail.get_future.call s policy.space
      (kokkosDispatch kind label policy args st)).2.outstanding,
      (x ∈ st.outstanding ∨ x ∈ workItems policy st.nextDispatch args) ∧
      (s = .fence → x.inst ≠ policy.space) := by
    intro x hx
    rw [get_future_call_outstanding] at hx
    by_cases hs : s = .fence
    · simp only [hs, if_true, List.mem_filter, kokkosDispatch, List.mem_append] at hx
      exact ⟨hx.1, fun _ => by simpa using hx.2⟩
    · simp only [hs, if_false, kokkosDispatch, List.mem_append] at hx
      exact ⟨hx, fun h => absurd h hs⟩
  refine ⟨?_, ?_, ?_, ?_, ?_⟩
  · rw [get_future_call_nextDispatch]
    show st.nextDispatch < st.nextDispatch + 1
    omega
  · intro x hx
    rw [get_future_call_nextDispatch]
    show x.dispatch < st.nextDispatch + 1
    rcases (hout x hx).1 with h | h
    · have := hwf x h
      omega
    · have := (hnew x h).1
      omega
  · intro x hx hd
    rcases (hout x hx).1 with h | h
    · have := hwf x h
      omega
    · exact (hnew x h).2
  · intro x hx
    rw [get_future_call_finished, get_future_call_outstanding]
    by_cases hs : s = .fence
    · left
      simp only [hs, if_true, List.mem_append, List.mem_filter, kokkosDispatch]
      exact Or.inr ⟨Or.inr hx, by simpa using (hnew x hx).2⟩
    · right
      simp only [hs, if_false, kokkosDispatch, List.mem_append]
      exact Or.inr hx
  · intro hs x hx hd
    rcases (hout x hx).1 with h | h
    · have := hwf x h
      omega
    · exact (hout x hx).2 hs (hnew x h).2

/-- C4: for every table of completion strategies, every dispatch kind, call
shape and work size, and every state `st` the system can reach after the
wrapper has returned (items finishing in any order, further dispatches being
submitted): if the future the wrapper returned can report ready in `st`, then
every work item of the wrapper's dispatch is finished in `st` and no item of
that dispatch is outstanding. -/
theorem no_premature_readiness {β : Type} (sel : SpaceKind → Strategy) (dflt : SpaceKind)
    (kind : DispatchKind) (shape : Shape) (args : Nat → β) (st0 st : State β)
    (hwf : ∀ w ∈ st0.outstanding, w.dispatch < st0.nextDispatch)
    (hreach : Relation.ReflTransGen Step (wrapper sel dflt kind shape args st0).2 st)
    (hready : isReady st (wrapper sel dflt kind shape args st0).1 = true) :
    (∀ w ∈ workItems (shape.toPolicy dflt) st0.nextDispatch args, w ∈ st.finished) ∧
    (∀ w ∈ st.outstanding, w.dispatch ≠ st0.nextDispatch) := by
  obtain ⟨msg, hw⟩ := wrapper_eq sel dflt kind shape args st0
  rw [hw] at hreach hready
  have hinit := tracks_init (sel (shape.toPolicy dflt).space.kind) kind shape.label
    (shape.toPolicy dflt) args (emit [Event.print msg] st0) hwf
  have ht := tracks_steps hinit hreach
  have hnone : ∀ w ∈ st.outstanding, w.dispatch ≠ st0.nextDispatch := by
    by_cases hs : sel (shape.toPolicy dflt).space.kind = .fence
    · exact ht.drained hs
    · intro w hwo hd
      have hloc := ht.located w hwo hd
      rw [get_future_call_fst] at hready
      have hfut : strategyFuture (sel (shape.toPolicy dflt).space.kind)
          (shape.toPolicy dflt).space (st0.nextDispatch + 1)
          = Future.after (shape.toPolicy dflt).space (st0.nextDispatch + 1) := by
        cases hk : sel (shape.toPolicy dflt).space.kind with
        | fence => exact absurd hk hs
        | stream m => rfl
        | nested => rfl
      have hready2 : isReady st
          (Future.after (shape.toPolicy dflt).space (st0.nextDispatch + 1)) = true := by
        rw [← hfut]; exact hready
      simp only [isReady, List.all_eq_true, decide_eq_true_eq] at hready2
      have := hready2 w hwo hloc
      omega
  refine ⟨?_, hnone⟩
  intro w hwi
  rcases ht.kept w hwi with h | h
  · exact h
  · obtain ⟨i, _, _, rfl⟩ := (mem_workItems _ _ _ _).1 hwi
    exact absurd rfl (hnone _ h)

/-- Witness for `no_premature_readiness`: a count dispatch of two items on an
empty CUDA system with event futures; the backend finishes item `1`, then item
`0`; the future is then ready and both items are finished. -/
theorem no_premature_readiness_witness :
    (∀ w ∈ workItems (Shape.toPolicy .cuda (.count 2)) 0 (fun i => i),
      w ∈ twoFinished.finished) ∧
    (∀ w ∈ twoFinished.outstanding, w.dispatch ≠ 0) :=
  no_premature_readiness eventOnly .cuda .parallelFor (.count 2) (fun i => i)
    (emptyState Nat) twoFinished
    (by intro w hw; cases hw)
    (Relation.ReflTransGen.tail
      (Relation.ReflTransGen.tail Relation.ReflTransGen.refl
        (Step.completes
          (Completes.item [⟨defaultInstance .cuda, 0, 0, 0⟩] []
            ⟨defaultInstance .cuda, 0, 1, 1⟩ [] 1 _)))
      (Step.completes
        (Completes.item [] [] ⟨defaultInstance .cuda, 0, 0, 0⟩
          [⟨defaultInstance .cuda, 0, 1, 1⟩] 1 _)))
    rfl

/-! ### One-way submission -/

theorem countP_filter_split {α : Type} (p q : α → Bool) (l : List α) :
    (l.filter fun x => !q x).countP p + (l.filter q).countP p = l.countP p := by
  induction l with
  | nil => rfl
  | cons a l ih =>
    by_cases hq : q a = true <;> by_cases hp : p a = true <;>
      simp [List.filter_cons, List.countP_cons, hq, hp] <;> omega

/-- The completion strategy moves calls from outstanding to finished: it keeps
the sum of finished and pending calls of `f`. -/
theorem get_future_call_calls {F V : Type} [DecidableEq F] (f : F) (s : Strategy)
    (inst : Instance) (st : State (Kernel F V)) :
    counter f (detail.get_future.call s inst st).2
        + pendingCalls f (detail.get_future.call s inst st).2
      = counter f st + pendingCalls f st := by
  unfold counter pendingCalls
  rw [get_future_call_finished, get_future_call_outstanding]
  by_cases hs : s = .fence
  · simp only [hs, if_true, List.countP_append]
    have h := countP_filter_split (callsFn f) (fun w => decide (w.inst = inst)) st.outstanding
    have e : (fun w : WorkItem (Kernel F V) => decide (w.inst ≠ inst))
        = fun w => !decide (w.inst = inst) := by
      funext w; simp
    rw [e]
    omega
  · simp only [hs, if_false]

theorem posted_completes {F V : Type} [DecidableEq F] {f : F} {inst : Instance}
    {d c : Nat} {fenced : Prop} {s t : State (Kernel F V)}
    (h : Posted f inst d c fenced s) (hc : Completes s t) : Posted f inst d c fenced t := by
  cases hc with
  | item pre post w fin n tr =>
    have hsub : ∀ x, x ∈ pre ++ post → x ∈ pre ++ w :: post := by
      intro x hx
      simp only [List.mem_append, List.mem_cons] at hx ⊢
      tauto
    refine ⟨?_, fun x hx => h.located x (hsub x hx), fun hf x hx => h.drained hf x (hsub x hx)⟩
    have ht := h.total
    simp only [counter, pendingCalls, List.countP_append, List.countP_cons,
      List.countP_nil] at ht ⊢
    omega

theorem posted_steps {F V : Type} [DecidableEq F] {f : F} {inst : Instance}
    {d c : Nat} {fenced : Prop} {s t : State (Kernel F V)}
    (h : Posted f inst d c fenced s) (hr : Relation.ReflTransGen Completes s t) :
    Posted f inst d c fenced t := by
  induction hr with
  | refl => exact h
  | tail _ hstep ih => exact posted_completes ih hstep

theorem pendingCalls_eq_zero {F V : Type} [DecidableEq F] (f : F)
    (st : State (Kernel F V)) (h : ∀ w ∈ st.outstanding, callsFn f w = false) :
    pendingCalls f st = 0 := by
  unfold pendingCalls
  rw [List.countP_eq_zero]
  intro w hw
  simp [h w hw]

/-- C6: `post(f, ts...)` returns no handle and leaves the state that one
`parallel_for` dispatch under the policy `[0, 1)` on the bound instance with the
light-weight hint leaves, a dispatch whose only work item (index `0`) is one
call of `f` with `ts`, followed by the completion strategy on that instance.
When no call of `f` is pending before the call of `post`, then in every state
reached by the backend finishing items after a following independent
`get_future` on the same instance, if that future can report ready, the counter
of `f` is exactly one above what it was before `post`. -/
theorem post_one_increment {F V : Type} [DecidableEq F] (sel : SpaceKind → Strategy)
    (ex : executor) (f : F) (ts : List V) (st0 : State (Kernel F V)) :
    (∃ sub : State (Kernel F V),
      executor.post sel ex f ts st0
        = (detail.get_future.call (sel ex.inst.kind) ex.inst sub).2 ∧
      sub.outstanding
        = st0.outstanding ++ [⟨ex.inst, st0.nextDispatch, 0, ⟨[], some ⟨f, ts⟩⟩⟩] ∧
      sub.finished = st0.finished ∧
      sub.nextDispatch = st0.nextDispatch + 1 ∧
      sub.trace = st0.trace ++
        [Event.print "calling parallel_for_async with execution policy\n",
         Event.dispatch .parallelFor none
           ⟨ex.inst, 0, 1, some WorkItemProperty.HintLightWeight⟩ st0.nextDispatch]) ∧
    ((∀ w ∈ st0.outstanding, callsFn f w = false) →
      ∀ st : State (Kernel F V),
        Relation.ReflTransGen Completes
          (get_future sel ex.inst (executor.post sel ex f ts st0)).2 st →
        isReady st (get_future sel ex.inst (executor.post sel ex f ts st0)).1 = true →
        counter f st = counter f st0 + 1) := by
  have hsub : ∃ sub : State (Kernel F V),
      executor.post sel ex f ts st0
        = (detail.get_future.call (sel ex.inst.kind) ex.inst sub).2 ∧
      sub.outstanding
        = st0.outstanding ++ [⟨ex.inst, st0.nextDispatch, 0, ⟨[], some ⟨f, ts⟩⟩⟩] ∧
      sub.finished = st0.finished ∧
      sub.nextDispatch = st0.nextDispatch + 1 ∧
      sub.trace = st0.trace ++
        [Event.print "calling parallel_for_async with execution policy\n",
         Event.dispatch .parallelFor none
           ⟨ex.inst, 0, 1, some WorkItemProperty.HintLightWeight⟩ st0.nextDispatch] := by
    refine ⟨_, rfl, ?_, rfl, rfl, ?_⟩
    · simp [kokkosDispatch, emit, require, workItems_unit, invoke_fused]
    · simp [kokkosDispatch, emit, require]
  refine ⟨hsub, ?_⟩
  intro hfresh st hreach hready
  obtain ⟨sub, hpost, hout, hfin, hnext, _⟩ := hsub
  -- the state after `post`
  have hitem : callsFn f (⟨ex.inst, st0.nextDispatch, 0, ⟨[], some ⟨f, ts⟩⟩⟩ :
      WorkItem (Kernel F V)) = true := by
    simp [callsFn]
  have hsubtotal : counter f sub + pendingCalls f sub = counter f st0 + 1 := by
    have h0 := pendingCalls_eq_zero f st0 hfresh
    unfold counter pendingCalls at h0 ⊢
    rw [hout, hfin, List.countP_append, h0]
    simp [List.countP_cons, hitem]
  have hsubloc : ∀ w ∈ sub.outstanding, callsFn f w = true →
      w.inst = ex.inst ∧ w.dispatch = st0.nextDispatch := by
    intro w hw hc
    rw [hout] at hw
    rcases List.mem_append.1 hw with hw | hw
    · rw [hfresh w hw] at hc
      cases hc
    · rw [List.mem_singleton.1 hw]
      exact ⟨rfl, rfl⟩
  -- the state after `post` and the independent `get_future`
  have hP : Posted f ex.inst st0.nextDispatch (counter f st0)
      (sel ex.inst.kind = .fence)
      (get_future sel ex.inst (executor.post sel ex f ts st0)).2 := by
    unfold get_future
    rw [hpost]
    refine ⟨?_, ?_, ?_⟩
    · rw [get_future_call_calls, get_future_call_calls]
      exact hsubtotal
    · intro w hw
      rw [get_future_call_outstanding, get_future_call_outstanding] at hw
      apply hsubloc
      by_cases hs : sel ex.inst.kind = .fence
      · simp only [hs, if_true, List.mem_filter] at hw
        exact hw.1.1
      · simpa only [hs, if_false] using hw
    · intro hs w hw
      rw [get_future_call_outstanding] at hw
      simp only [hs, if_true, List.mem_filter] at hw
      simpa using hw.2
  have hQ := posted_steps hP hreach
  have hnone : ∀ w ∈ st.outstanding, callsFn f w = false := by
    intro w hw
    by_contra hc
    have hc : callsFn f w = true := by simpa using hc
    obtain ⟨hi, hd⟩ := hQ.located w hw hc
    by_cases hs : sel ex.inst.kind = .fence
    · exact hQ.drained hs w hw hi
    · unfold get_future at hready
      rw [hpost, get_future_call_fst, get_future_call_nextDispatch, hnext] at hready
      have hfut : strategyFuture (sel ex.inst.kind) ex.inst (st0.nextDispatch + 1)
          = Future.after ex.inst (st0.nextDispatch + 1) := by
        cases hk : sel ex.inst.kind with
        | fence => exact absurd hk hs
        | stream m => rfl
        | nested => rfl
      rw [hfut] at hready
      simp only [isReady, List.all_eq_true, decide_eq_true_eq] at hready
      have := hready w hw hi
      omega
  have hz := pendingCalls_eq_zero f st hnone
  have ht := hQ.total
  omega

/-- Witness for `post_one_increment`: one `post` on an empty CUDA system with
event futures, an independent `get_future`, the backend finishing the item: the
counter goes from `0` to `1`. -/
theorem post_one_increment_witness :
    counter (7 : Nat) postFinished = counter (7 : Nat) (emptyState (Kernel Nat Nat)) + 1 :=
  (post_one_increment eventOnly ⟨defaultInstance .cuda⟩ (7 : Nat) [(5 : Nat)]
    (emptyState (Kernel Nat Nat))).2
    (by intro w hw; cases hw)
    postFinished
    (Relation.ReflTransGen.tail Relation.ReflTransGen.refl
      (Completes.item [] []
        (⟨defaultInstance .cuda, 0, 0, ⟨[], some ⟨7, [5]⟩⟩⟩ : WorkItem (Kernel Nat Nat))
        [] 1 _))
    rfl

end HpxKokkos
